import Mathlib

/-!
# Verification of the Content Pipeline Orchestration Engine

A shallow embedding of the core of the social-content-engine repository
(`src/services/content-miner.ts`, `src/services/slack-bot.ts`,
`src/services/scheduler.ts` (AIBrain part), `src/services/transcript-store.ts`,
`src/index.ts`), together with theorems settling the spec's claims.

Modelling conventions:
* The system is single-threaded and event-driven (see spec §5); every handler
  is embedded as a pure state-transition function over explicit state records.
* Timestamps (`Date.now()`, `new Date().toISOString()`) are modelled as `Nat`.
  All timestamps in the source are produced by one monotone clock, and the
  source only ever compares them for order, so ISO-8601 lexicographic order
  coincides with the numeric order used here.
* JavaScript `Map` objects are modelled as association lists in insertion
  order (`mapSet` replaces an existing binding in place and appends a new
  key at the tail, exactly like `Map.prototype.set`); JavaScript `Set`
  objects are modelled as `List String` used up to membership.
* Calls to external collaborators (drafting service, record store, chat
  transport) are modelled as oracle functions carried in an `Env` record;
  a fallible call returns `Option`/`Except`, with the failure constructor
  standing for a thrown error that the source catches at the call site.
-/

/-- `ContentIdea.status` (src/types/index.ts). -/
inductive IdeaStatus
  | extracted | interviewing | drafting | draft_ready | published
deriving DecidableEq

/-- `ContentDraft.status` (src/types/index.ts). -/
inductive DraftStatus
  | draft | review | approved | published
deriving DecidableEq

/-- `InterviewSession.status` (src/types/index.ts). -/
inductive SessionStatus
  | active | completed | abandoned
deriving DecidableEq

/-- `ContentFormat` (src/types/index.ts). -/
inductive ContentFormat
  | linkedin_post | youtube_script | newsletter | x_thread
deriving DecidableEq

/-- `InterviewMessage.role` (src/types/index.ts). -/
inductive MsgRole
  | agent | user
deriving DecidableEq

/-- `Transcript.source` (src/types/index.ts). -/
inductive TranscriptSource
  | tldv | manual
deriving DecidableEq

/-- `Transcript` (src/types/index.ts). `date` and `processedAt` are `Nat`
timestamps per the time-modelling convention. -/
structure Transcript where
  id : String
  meetingId : String
  title : String
  date : Nat
  participants : List String
  content : String
  source : TranscriptSource
  notionPageId : Option String := none
deriving DecidableEq

/-- `ContentIdea` (src/types/index.ts). -/
structure ContentIdea where
  id : String
  sourceTranscriptIds : List String
  theme : String
  hook : String
  rawQuotes : List String
  suggestedFormat : ContentFormat
  status : IdeaStatus
  createdAt : Nat
  notionPageId : Option String := none
deriving DecidableEq

/-- `ContentDraft` (src/types/index.ts). -/
structure ContentDraft where
  id : String
  ideaId : String
  format : ContentFormat
  title : String
  body : String
  version : Nat
  status : DraftStatus
  createdAt : Nat
  notionPageId : Option String := none
deriving DecidableEq

/-- `InterviewMessage` (src/types/index.ts). -/
structure InterviewMessage where
  role : MsgRole
  content : String
  timestamp : Nat
deriving DecidableEq

/-- `InterviewSession` (src/types/index.ts). -/
structure InterviewSession where
  id : String
  ideaId : String
  slackThreadTs : String
  messages : List InterviewMessage
  status : SessionStatus
  startedAt : Nat
  completedAt : Option Nat := none
deriving DecidableEq

/-- The `pendingRework` record of `SlackBot`
(`{ draftId: string; ideaId: string } | null`). -/
structure PendingRework where
  draftId : String
  ideaId : String
deriving DecidableEq

/-! ## String normalization (content-miner.ts `normalizeHook`, slack-bot.ts
command normalization)

Both files use the identical chain
`.toLowerCase().replace(/[^a-z0-9\s]/g, '').replace(/\s+/g, ' ').trim()`.
-/

/-- The characters matched by the regex class `\s` (ASCII part; the inputs
relevant here are ASCII). -/
def jsWhitespace (c : Char) : Bool :=
  c == ' ' || c == '\t' || c == '\n' || c == '\r' ||
  c == Char.ofNat 11 || c == Char.ofNat 12

/-- A character kept by `replace(/[^a-z0-9\s]/g, '')` (applied after
lowercasing). -/
def keptByStrip (c : Char) : Bool :=
  ('a' ≤ c && c ≤ 'z') || ('0' ≤ c && c ≤ '9') || jsWhitespace c

/-- `replace(/\s+/g, ' ')`: collapse each maximal run of whitespace into a
single space. `prevWs` records whether the previous character was part of a
whitespace run. -/
def collapseWsAux (prevWs : Bool) : List Char → List Char
  | [] => []
  | c :: rest =>
    if jsWhitespace c then
      if prevWs then collapseWsAux true rest
      else ' ' :: collapseWsAux true rest
    else c :: collapseWsAux false rest

/-- `String.prototype.trim()` on the already-collapsed text. -/
def trimChars (l : List Char) : List Char :=
  ((l.dropWhile jsWhitespace).reverse.dropWhile jsWhitespace).reverse

/-- The normalization chain
`.toLowerCase().replace(/[^a-z0-9\s]/g, '').replace(/\s+/g, ' ').trim()`
shared by `ContentMiner.normalizeHook` (content-miner.ts lines 69-71) and the
command normalization in slack-bot.ts (lines 323, 344, 603). -/
def normalizeText (s : String) : String :=
  String.mk (trimChars (collapseWsAux false ((s.data.map Char.toLower).filter keptByStrip)))

/-- `ContentMiner.normalizeHook` (content-miner.ts lines 69-71). -/
def normalizeHook (hook : String) : String := normalizeText hook

/-! ## Association-list model of JavaScript `Map` -/

/-- `Map.prototype.get`. -/
def mapGet {α : Type} (l : List (String × α)) (k : String) : Option α :=
  match l with
  | [] => none
  | (a, b) :: rest => if a = k then some b else mapGet rest k

/-- `Map.prototype.set`: replaces an existing binding in place, appends a new
key at the tail (insertion order preserved). -/
def mapSet {α : Type} (l : List (String × α)) (k : String) (v : α) : List (String × α) :=
  match l with
  | [] => [(k, v)]
  | (a, b) :: rest => if a = k then (k, v) :: rest else (a, b) :: mapSet rest k v

theorem mapGet_mapSet {α : Type} (l : List (String × α)) (k k' : String) (v : α) :
    mapGet (mapSet l k v) k' = if k' = k then some v else mapGet l k' := by
  induction l with
  | nil =>
    simp only [mapSet, mapGet]
    by_cases h : k = k'
    · subst h; simp
    · rw [if_neg h, if_neg (fun hh => h hh.symm)]
  | cons p rest ih =>
    obtain ⟨a, b⟩ := p
    simp only [mapSet]
    by_cases hak : a = k
    · subst hak
      simp only [if_pos rfl, mapGet]
      by_cases hk' : a = k'
      · subst hk'; simp
      · rw [if_neg hk', if_neg (fun hh => hk' hh.symm), if_neg hk']
    · simp only [if_neg hak, mapGet]
      by_cases hak' : a = k'
      · subst hak'
        rw [if_pos rfl, if_neg (fun hh : a = k => hak hh)]
        simp [mapGet]
      · rw [if_neg hak', ih]
        by_cases hk : k' = k
        · simp [hk]
        · simp [hk, mapGet, if_neg hak']

/-! ## Oracle environment for external collaborators (spec §6) -/

/-- Oracles standing for the external drafting service, record store and chat
transport, plus the event clock. Each field models the response the external
world gives to the corresponding call during one event; a `none`/`error`
result stands for a thrown error, which the source catches at the call site. -/
structure Env where
  /-- `Date.now()` / `new Date()` during this event. -/
  time : Nat
  /-- `chat.postMessage(...).ts` for a content-ping post
  (slack-bot.ts line 150: the session is only created when a ts came back). -/
  pingTs : Option String
  /-- `AIBrain.generateInterviewOpener` result. -/
  opener : String
  /-- `AIBrain.hasEnoughMaterial`'s service judgment (the `answer.includes("yes")`
  outcome) as a function of the message history. -/
  judge : List InterviewMessage → Bool
  /-- `AIBrain.generateFollowUp` result. -/
  followUp : String
  /-- `AIBrain.generateDraft`'s body text. -/
  draftBody : String
  /-- `AIBrain.reworkDraft originalBody feedback format` result. -/
  reworkBody : String → String → ContentFormat → Except Unit String
  /-- `NotionService.saveContentIdea` result (`none` = threw). -/
  saveIdea : ContentIdea → Option String
  /-- `NotionService.saveContentDraft` result (`none` = threw). -/
  saveDraft : ContentDraft → Option String
  /-- `NotionService.loadTranscriptContent` for a transcript (`none` = threw). -/
  loadContent : Transcript → Option String
  /-- `AIBrain.mineContentIdeas` on a batch (`error` = threw or returned garbage;
  a malformed response is `ok []` per ai-brain's own parsing). -/
  extract : List Transcript → Except Unit (List ContentIdea)
  /-- `transcriptStore.getRecent(90)` as seen by the `mine` command. -/
  recent90 : List Transcript

/-! ## ContentMiner state and operations (content-miner.ts) -/

/-- The private fields of `ContentMiner` (content-miner.ts lines 12-16).
`processing` is omitted: in the single-threaded event model a drain runs to
completion, so the re-entrancy flag is always `false` at the points modelled
here. -/
structure MinerState where
  ideas : List (String × ContentIdea)
  pendingTranscripts : List Transcript
  minedTranscriptIds : List String
  knownHooks : List String
deriving DecidableEq

/-- A fresh `ContentMiner` (all registries empty). -/
def emptyMiner : MinerState :=
  { ideas := [], pendingTranscripts := [], minedTranscriptIds := [], knownHooks := [] }

/-- `Set.prototype.add` on the normalized-hook set. -/
def addKnownHook (hooks : List String) (h : String) : List String :=
  if h ∈ hooks then hooks else h :: hooks

/-- `ContentMiner.isDuplicate` (content-miner.ts lines 76-78):
`knownHooks.has(normalizeHook(hook))`. -/
def isDuplicate (hooks : List String) (hook : String) : Bool :=
  decide (normalizeHook hook ∈ hooks)

/-- The body of the per-idea recording step of `ContentMiner.mineFromTranscripts`
(content-miner.ts lines 207-217): insert into the registry, add the normalized
hook to the dedup set, persist to the record store (line 211; a save failure is
caught and leaves the idea without a page id). Returns the recorded idea as it
ends up in the registry. -/
def recordIdea (env : Env) (s : MinerState) (idea : ContentIdea) : MinerState × ContentIdea :=
  let idea' := match env.saveIdea idea with
    | some pid => { idea with notionPageId := some pid }
    | none => idea
  ({ s with ideas := mapSet s.ideas idea.id idea',
            knownHooks := addKnownHook s.knownHooks (normalizeHook idea.hook) }, idea')

/-- The `for (const idea of ideas)` loop of `ContentMiner.mineFromTranscripts`
(content-miner.ts lines 200-218): dedup-check each idea, record the unique
ones, accumulate them into the result. -/
def recordIdeas (env : Env) : MinerState → List ContentIdea → MinerState × List ContentIdea
  | s, [] => (s, [])
  | s, idea :: rest =>
    if isDuplicate s.knownHooks idea.hook then recordIdeas env s rest
    else
      let pr := recordIdea env s idea
      let rest' := recordIdeas env pr.1 rest
      (rest'.1, pr.2 :: rest'.2)

/-- The per-transcript content decision inside `ContentMiner.mineFromTranscripts`
(content-miner.ts lines 156-173): a transcript with content longer than 50 is
kept as-is; one with a record-store page id gets its content lazily loaded
(`some u` with the loaded content when that succeeds and is long enough,
`none` when the load threw or the result is too short); anything else is
skipped. -/
def keepContent (loadContent : Transcript → Option String) (t : Transcript) :
    Option Transcript :=
  if 50 < t.content.length then some t
  else match t.notionPageId with
    | some _ =>
      match loadContent t with
      | some c => if 50 < c.length then some { t with content := c } else none
      | none => none
    | none => none

/-- The content-collection loop of `ContentMiner.mineFromTranscripts`
(content-miner.ts lines 155-176): keep transcripts per `keepContent` and mark
every attempted transcript mined regardless (line 175). Returns
`(withContent, attemptedIds)`. -/
def collectWithContent (loadContent : Transcript → Option String) :
    List Transcript → List Transcript × List String
  | [] => ([], [])
  | t :: rest =>
    let pr := collectWithContent loadContent rest
    match keepContent loadContent t with
    | some u => (u :: pr.1, t.id :: pr.2)
    | none => (pr.1, t.id :: pr.2)

/-- The truncation step of `ContentMiner.mineFromTranscripts`
(content-miner.ts lines 183-187). -/
def truncateContent (t : Transcript) : Transcript :=
  if 4000 < t.content.length then
    { t with content := (t.content.take 4000) ++ "\n\n[... transcript truncated for processing]" }
  else t

/-- The batching loop `for (let i = 0; i < withContent.length; i += batchSize)`
(content-miner.ts line 192): successive slices of size `k`. -/
def batchesOf {α : Type} (k : Nat) : List α → List (List α)
  | [] => []
  | x :: xs => ((x :: xs).take k) :: batchesOf k (xs.drop (k - 1))
termination_by l => l.length
decreasing_by simp only [List.length_drop, List.length_cons]; omega

/-- The per-batch extraction loop of `ContentMiner.mineFromTranscripts`
(content-miner.ts lines 192-222): submit each batch to the drafting service;
an extraction error is caught and the loop continues with the next batch. -/
def processBatches (env : Env) : List (List Transcript) → MinerState → MinerState × List ContentIdea
  | [], s => (s, [])
  | b :: bs, s =>
    match env.extract b with
    | .error _ => processBatches env bs s
    | .ok ideas =>
      let pr := recordIdeas env s ideas
      let rest := processBatches env bs pr.1
      (rest.1, pr.2 ++ rest.2)

/-- Result of one `mineFromTranscripts` call: the final miner state, the
batches submitted to the drafting service (in order), and the returned ideas. -/
structure MineOutcome where
  state : MinerState
  batches : List (List Transcript)
  returned : List ContentIdea
deriving DecidableEq

/-- `ContentMiner.mineFromTranscripts` (content-miner.ts lines 142-225),
the `mineOnDemand` path of the spec. -/
def mineFromTranscripts (env : Env) (s : MinerState) (transcripts : List Transcript) :
    MineOutcome :=
  if transcripts = [] then ⟨s, [], []⟩
  else
    let unmined := transcripts.filter fun t => !decide (t.id ∈ s.minedTranscriptIds)
    if unmined = [] then ⟨s, [], []⟩
    else
      let collected := collectWithContent env.loadContent unmined
      let s1 := { s with minedTranscriptIds := collected.2 ++ s.minedTranscriptIds }
      if collected.1 = [] then ⟨s1, [], []⟩
      else
        let toMine := collected.1.map truncateContent
        let bs := batchesOf 10 toMine
        let pr := processBatches env bs s1
        ⟨pr.1, bs, pr.2⟩

/-- The idea-recording loop of `ContentMiner.processQueue`
(content-miner.ts lines 111-122): every returned idea is inserted into the
registry and persisted — there is no `isDuplicate` check and `knownHooks` is
not updated on this path. -/
def processQueueRecord (env : Env) : MinerState → List ContentIdea → MinerState
  | s, [] => s
  | s, idea :: rest =>
    let idea' := match env.saveIdea idea with
      | some pid => { idea with notionPageId := some pid }
      | none => idea
    processQueueRecord env { s with ideas := mapSet s.ideas idea.id idea' } rest

/-- The drain loop of `ContentMiner.processQueue` (content-miner.ts lines
99-135): take a batch of up to 5 from the front of the pending list, submit it
for extraction (an error is caught), record the returned ideas, then drain
again while items remain. In the single-threaded event model the `processing`
guard means exactly one drain consumes the whole pending list. -/
def processQueueGo (env : Env) : List Transcript → MinerState → MinerState
  | [], s => s
  | t1 :: t2 :: t3 :: t4 :: t5 :: rest, s =>
    let s1 := match env.extract [t1, t2, t3, t4, t5] with
      | .error _ => s
      | .ok ideas => processQueueRecord env s ideas
    processQueueGo env rest s1
  | l, s =>
    match env.extract l with
    | .error _ => s
    | .ok ideas => processQueueRecord env s ideas

/-- `ContentMiner.processQueue` (content-miner.ts lines 99-135) run from the
current state. -/
def processQueue (env : Env) (s : MinerState) : MinerState :=
  processQueueGo env s.pendingTranscripts { s with pendingTranscripts := [] }

/-- `ContentMiner.queueTranscript` (content-miner.ts lines 84-94): append to
the pending list and, as no drain is in progress, drain. -/
def queueTranscript (env : Env) (s : MinerState) (t : Transcript) : MinerState :=
  processQueue env { s with pendingTranscripts := s.pendingTranscripts ++ [t] }

/-- The per-idea loop body of `ContentMiner.loadFromNotion`
(content-miner.ts lines 34-48): register the idea, seed the hook set, mark its
source transcripts mined, and flag `hasOrphanedIdeas` when the idea has none.
The accumulator is `(state, hasOrphanedIdeas)`. -/
def loadIdeasStep (acc : MinerState × Bool) (idea : ContentIdea) : MinerState × Bool :=
  let st := { acc.1 with
    ideas := mapSet acc.1.ideas idea.id idea,
    knownHooks := addKnownHook acc.1.knownHooks (normalizeHook idea.hook) }
  if idea.sourceTranscriptIds = [] then (st, true)
  else ({ st with minedTranscriptIds := idea.sourceTranscriptIds ++ st.minedTranscriptIds },
        acc.2)

/-- `ContentMiner.loadFromNotion` (content-miner.ts lines 29-63), the
`loadExisting` operation of the spec. `result` is the outcome of
`notion.loadContentIdeas()` (`error` = threw; caught, leaving the state
untouched). If any loaded idea lacks source-transcript ids and a full
transcript-id list was supplied, every supplied id is marked mined. -/
def loadFromNotion (s : MinerState) (result : Except Unit (List ContentIdea))
    (allTranscriptIds : Option (List String)) : MinerState :=
  match result with
  | .error _ => s
  | .ok ideas =>
    let pr := ideas.foldl loadIdeasStep (s, false)
    match pr.2, allTranscriptIds with
    | true, some l => { pr.1 with minedTranscriptIds := l ++ pr.1.minedTranscriptIds }
    | _, _ => pr.1

/-- `ContentMiner.getUnprocessedIdeas` (content-miner.ts lines 230-234). -/
def getUnprocessedIdeas (s : MinerState) : List ContentIdea :=
  (s.ideas.map Prod.snd).filter fun i => decide (i.status = .extracted)

/-- The descending-by-`createdAt` insertion used to model the stable
`Array.prototype.sort` comparator of `getAllIdeas`. -/
def insertDesc (x : ContentIdea) : List ContentIdea → List ContentIdea
  | [] => [x]
  | y :: ys => if y.createdAt < x.createdAt then x :: y :: ys else y :: insertDesc x ys

/-- `ContentMiner.getAllIdeas` (content-miner.ts lines 264-268): all ideas
sorted by creation time, newest first. -/
def getAllIdeas (s : MinerState) : List ContentIdea :=
  (s.ideas.map Prod.snd).foldr insertDesc []

/-- `ContentMiner.updateIdeaStatus` (content-miner.ts lines 246-259). Returns
the new state together with the list of record-store page ids for which
`updatePageStatus` was invoked (a failure of that call is caught and does not
affect the state). -/
def updateIdeaStatus (s : MinerState) (id : String) (status : IdeaStatus) :
    MinerState × List String :=
  match mapGet s.ideas id with
  | none => (s, [])
  | some idea =>
    let idea' := { idea with status := status }
    let s' := { s with ideas := mapSet s.ideas id idea' }
    match idea.notionPageId with
    | some pid => (s', [pid])
    | none => (s', [])

/-- `AIBrain.hasEnoughMaterial` (scheduler.ts/ai-brain lines 292-314): fewer
than 4 messages is never enough, 10 or more always is, in between the external
service's yes/no judgment decides. -/
def hasEnoughMaterial (judge : List InterviewMessage → Bool)
    (messages : List InterviewMessage) : Bool :=
  if messages.length < 4 then false
  else if 10 ≤ messages.length then true
  else judge messages

/-- `AIBrain.generateDraft` (ai-brain lines 319-389): a fresh draft always has
`version 1`, id `draft-<now>`, the idea's hook as title and the idea's id as
lineage. The body text is the drafting service's response (`Env.draftBody`). -/
def generateDraft (idea : ContentIdea) (format : ContentFormat) (body : String)
    (time : Nat) : ContentDraft :=
  { id := "draft-" ++ toString time, ideaId := idea.id, format := format,
    title := idea.hook, body := body, version := 1, status := .draft,
    createdAt := time, notionPageId := none }

/-! ## SlackBot state and handlers (slack-bot.ts) -/

/-- The mutable fields of `SlackBot` (slack-bot.ts lines 90-93) together with
the `ContentMiner` it holds a reference to. -/
structure AppState where
  miner : MinerState
  activeSessions : List (String × InterviewSession)
  pendingDrafts : List (String × ContentDraft)
  lastShownIdeas : List ContentIdea
  pendingRework : Option PendingRework
deriving DecidableEq

/-- A fresh `SlackBot` over a fresh miner. -/
def emptyApp : AppState :=
  { miner := emptyMiner, activeSessions := [], pendingDrafts := [],
    lastShownIdeas := [], pendingRework := none }

/-- An inbound direct message after the Slack-formatting strip of
slack-bot.ts lines 293-298: `text` is the cleaned `userMessage`, `ts` the
message's own timestamp key, `threadTs` the thread anchor when the message is
a threaded reply. -/
structure InboundMsg where
  text : String
  ts : String
  threadTs : Option String
deriving DecidableEq

/-- The routing outcome of the inbound-message handler
(slack-bot.ts lines 311-360), as the tagged-variant dispatch of spec §9. -/
inductive Route
  | interviewReply (sessionKey : String)
  | cancelRework
  | reworkFeedback
  | command
deriving DecidableEq

/-- `true` iff the route delivers the message to an interview session. -/
def isReplyRoute : Route → Bool
  | .interviewReply _ => true
  | _ => false

/-- The commands let through the non-threaded convenience routing
(slack-bot.ts line 324). -/
def commandTokensDM : List String :=
  ["stop", "done", "ideas", "mine", "status", "help",
   "what do you have", "show ideas", "find content"]

/-- The commands let through while rework feedback is pending
(slack-bot.ts line 345). -/
def commandTokensRework : List String :=
  ["stop", "done", "ideas", "mine", "status", "help", "cancel"]

/-- The regex `/^\d{1,2}$/` (slack-bot.ts lines 326 and 619). -/
def isBareNumber (s : String) : Bool :=
  decide (0 < s.length) && decide (s.length ≤ 2) && s.data.all Char.isDigit

/-- `SlackBot.getLatestActiveSession`'s fold (slack-bot.ts lines 783-792),
with its accumulator made explicit: scan the sessions in map insertion order,
keeping the strictly most recently started active one. -/
def latestActiveAux (acc : Option (String × InterviewSession)) :
    List (String × InterviewSession) → Option (String × InterviewSession)
  | [] => acc
  | (k, s) :: rest =>
    if s.status = .active then
      match acc with
      | none => latestActiveAux (some (k, s)) rest
      | some (_, s0) =>
        if s0.startedAt < s.startedAt then latestActiveAux (some (k, s)) rest
        else latestActiveAux acc rest
    else latestActiveAux acc rest

/-- `SlackBot.getLatestActiveSession` (slack-bot.ts lines 783-792), returned
together with its map key. -/
def getLatestActiveSession (l : List (String × InterviewSession)) :
    Option (String × InterviewSession) :=
  latestActiveAux none l

/-- The routing of an inbound DM (slack-bot.ts lines 311-360):
1. a reply in an active session's thread is an interview reply;
2. a non-threaded message that is neither a known command token nor a bare
   1-2 digit number goes to the most recently started active session, if any;
3. while rework feedback is pending, `cancel` cancels it, any other
   non-command message is rework feedback, and a command falls through;
4. everything else is dispatched as a command. -/
def routeMessage (app : AppState) (msg : InboundMsg) : Route :=
  let threadTs := msg.threadTs.getD msg.ts
  let step3 : Route :=
    match app.pendingRework with
    | some _ =>
      let cmd := normalizeText msg.text
      if cmd = "cancel" then .cancelRework
      else if cmd ∈ commandTokensRework then .command
      else .reworkFeedback
    | none => .command
  let step2 : Route :=
    if msg.threadTs = none then
      let lower := normalizeText msg.text
      if lower ∈ commandTokensDM ∨ isBareNumber lower = true then step3
      else
        match getLatestActiveSession app.activeSessions with
        | some (k, _) => .interviewReply k
        | none => step3
    else step3
  match mapGet app.activeSessions threadTs with
  | some sess => if sess.status = .active then .interviewReply threadTs else step2
  | none => step2

/-- `SlackBot.sendContentPing` (slack-bot.ts lines 137-171): post the opener;
when the chat transport returned a ts, create a fresh `active` session keyed
by that ts and move the idea to `interviewing`. -/
def sendContentPing (env : Env) (app : AppState) (idea : ContentIdea) : AppState :=
  match env.pingTs with
  | none => app
  | some ts =>
    let sess : InterviewSession :=
      { id := "session-" ++ toString env.time, ideaId := idea.id, slackThreadTs := ts,
        messages := [{ role := .agent, content := env.opener, timestamp := env.time }],
        status := .active, startedAt := env.time, completedAt := none }
    let app1 := { app with activeSessions := mapSet app.activeSessions ts sess }
    { app1 with miner := (updateIdeaStatus app1.miner idea.id .interviewing).1 }

/-- The draft-persistence step shared by the draft and rework flows
(slack-bot.ts lines 494-498 and 574-578): `notion.saveContentDraft` assigns
the page id on success; a failure is caught and leaves the draft as built. -/
def saveDraftStep (env : Env) (d : ContentDraft) : ContentDraft :=
  match env.saveDraft d with
  | some pid => { d with notionPageId := some pid }
  | none => d

/-- `SlackBot.handleInterviewReply` (slack-bot.ts lines 457-534): append the
user message; if the idea is gone, stop; otherwise ask `hasEnoughMaterial`.
If enough, complete the session, generate and persist a draft, move the idea
to `draft_ready` and deliver the draft (`sendDraftNotification` caches it in
`pendingDrafts`); otherwise append and deliver a follow-up question. The
second component is the draft delivered by this event, if any. -/
def handleInterviewReply (env : Env) (app : AppState) (key : String)
    (userText : String) : AppState × Option ContentDraft :=
  match mapGet app.activeSessions key with
  | none => (app, none)
  | some sess =>
    let sess1 := { sess with
      messages := sess.messages ++ [{ role := .user, content := userText, timestamp := env.time }] }
    let app1 := { app with activeSessions := mapSet app.activeSessions key sess1 }
    match mapGet app1.miner.ideas sess1.ideaId with
    | none => (app1, none)
    | some idea =>
      if hasEnoughMaterial env.judge sess1.messages then
        let sess2 := { sess1 with status := .completed, completedAt := some env.time }
        let app2 := { app1 with activeSessions := mapSet app1.activeSessions key sess2 }
        let d := saveDraftStep env (generateDraft idea idea.suggestedFormat env.draftBody env.time)
        let app3 := { app2 with miner := (updateIdeaStatus app2.miner idea.id .draft_ready).1 }
        let app4 := { app3 with pendingDrafts := mapSet app3.pendingDrafts d.id d }
        (app4, some d)
      else
        let sess2 := { sess1 with
          messages := sess1.messages ++ [{ role := .agent, content := env.followUp, timestamp := env.time }] }
        ({ app1 with activeSessions := mapSet app1.activeSessions key sess2 }, none)

/-- The new-version construction inside `SlackBot.handleReworkFeedback`
(slack-bot.ts lines 563-571): spread the original draft, give it a fresh
`draft-<now>` id, the reworked body, an incremented version, status `draft`
and a new creation time. The spread preserves `ideaId`, `format` and `title`;
the original draft value is not modified. -/
def mkReworkDraft (draft : ContentDraft) (newBody : String) (time : Nat) : ContentDraft :=
  { draft with
    id := "draft-" ++ toString time,
    body := newBody,
    version := draft.version + 1,
    status := .draft,
    createdAt := time }

/-- The prefix of `SlackBot.handleReworkFeedback` executed before the first
external call (slack-bot.ts lines 538-543): the pending-rework flag is cleared
immediately, so the state visible at every later suspension point of the
handler has no pending rework. -/
def reworkPre (app : AppState) : AppState := { app with pendingRework := none }

/-- `SlackBot.handleReworkFeedback` (slack-bot.ts lines 538-597): clear the
pending flag first; look up the cached original draft; ask the drafting
service for a reworked body (a failure is caught and reported, leaving no
pending state); build the new incremented-version draft, persist it (a save
failure is caught) and deliver it (`sendDraftNotification` caches it under its
fresh id). The second component is the reworked draft, if one was produced. -/
def handleReworkFeedback (env : Env) (app : AppState) (feedback : String) :
    AppState × Option ContentDraft :=
  match app.pendingRework with
  | none => (app, none)
  | some rw =>
    let app1 := reworkPre app
    match mapGet app1.pendingDrafts rw.draftId with
    | none => (app1, none)
    | some draft =>
      match env.reworkBody draft.body feedback draft.format with
      | .error _ => (app1, none)
      | .ok newBody =>
        let nd := saveDraftStep env (mkReworkDraft draft newBody env.time)
        ({ app1 with pendingDrafts := mapSet app1.pendingDrafts nd.id nd }, some nd)

/-- The `stop`/`done` branch of `SlackBot.handleCommand` (slack-bot.ts lines
605-612): abandon the most recently started active session, if any. -/
def handleStopCmd (app : AppState) : AppState :=
  match getLatestActiveSession app.activeSessions with
  | some (k, s) =>
    { app with activeSessions := mapSet app.activeSessions k { s with status := .abandoned } }
  | none => app

/-- `parseInt(input, 10)` on the already-normalized (lowercase, alphanumeric
and spaces, trimmed) input: the leading run of digits, `none` for `NaN`. -/
def jsParseInt (s : String) : Option Nat :=
  let ds := s.data.takeWhile Char.isDigit
  if ds = [] then none
  else some (ds.foldl (fun n c => n * 10 + (c.toNat - 48)) 0)

/-- `String.prototype.includes` on the substring level. -/
def strIncludesAux (sub : List Char) : List Char → Bool
  | [] => sub.isEmpty
  | c :: rest => sub.isPrefixOf (c :: rest) || strIncludesAux sub rest

/-- `a.includes(b)`. -/
def strIncludes (a b : String) : Bool := strIncludesAux b.data a.data

/-- The argument extraction `command.replace('draft ', '').trim()`
(slack-bot.ts line 713). The branch is only reached when the command starts
with `draft ` or is a bare number, so the replace-first collapses to dropping
the prefix when present. -/
def draftCmdInput (command : String) : String :=
  if command.startsWith "draft " then normalizeText (command.drop 6) else command

/-- `SlackBot.handleDraftCommand` (slack-bot.ts lines 712-753): a number from
1 to 99 selects from the last shown ideas (falling back to all ideas); other
input is looked up as an idea id, then fuzzily; a found idea starts an
interview via `sendContentPing`; otherwise only a chat message is sent. -/
def handleDraftCommand (env : Env) (app : AppState) (command : String) : AppState :=
  let input := draftCmdInput command
  let byId : AppState :=
    match mapGet app.miner.ideas input with
    | some idea => sendContentPing env app idea
    | none =>
      match (getAllIdeas app.miner).find? (fun i =>
          strIncludes i.id input || strIncludes input i.id) with
      | some fuzzy => sendContentPing env app fuzzy
      | none => app
  match jsParseInt input with
  | some n =>
    if 1 ≤ n ∧ n ≤ 99 then
      let list := if app.lastShownIdeas ≠ [] then app.lastShownIdeas else getAllIdeas app.miner
      match list.get? (n - 1) with
      | some idea => sendContentPing env app idea
      | none => app
    else byId
  | none => byId

/-- `SlackBot.handleCommand` (slack-bot.ts lines 601-629). The `status`,
`help` and passive-context branches only post chat messages and leave the
state unchanged. -/
def handleCommand (env : Env) (app : AppState) (text : String) : AppState :=
  let command := normalizeText text
  if command = "stop" ∨ command = "done" then handleStopCmd app
  else if command = "status" ∨ command = "what do you have" then app
  else if command = "ideas" ∨ command = "show ideas" then
    if getUnprocessedIdeas app.miner = [] then app
    else { app with lastShownIdeas := (getUnprocessedIdeas app.miner).take 10 }
  else if command = "mine" ∨ command = "find content" then
    if env.recent90 = [] then app
    else
      let r := mineFromTranscripts env app.miner env.recent90
      let app' := { app with miner := r.state }
      if r.returned = [] then app' else { app' with lastShownIdeas := r.returned }
  else if command.startsWith "draft " ∨ isBareNumber command = true then
    handleDraftCommand env app command
  else app

/-- The full inbound-message handler (slack-bot.ts lines 273-369): route, then
dispatch. On the command route the pending-rework flag is cleared (the source
clears it when falling through from the rework check; when no rework was
pending the clear is a no-op, so the unconditional clear is faithful). The
second component is the draft delivered by this event, if any. -/
def handleMessage (env : Env) (app : AppState) (msg : InboundMsg) :
    AppState × Option ContentDraft :=
  match routeMessage app msg with
  | .interviewReply key => handleInterviewReply env app key msg.text
  | .cancelRework => ({ app with pendingRework := none }, none)
  | .reworkFeedback => handleReworkFeedback env app msg.text
  | .command => (handleCommand env { app with pendingRework := none } msg.text, none)

/-- The status of the session stored under a thread key. -/
def sessionStatusAt (app : AppState) (key : String) : Option SessionStatus :=
  (mapGet app.activeSessions key).map InterviewSession.status

/-- The `(status, ideaId)` view of the session stored under a thread key. -/
def sessionViewAt (app : AppState) (key : String) : Option (SessionStatus × String) :=
  (mapGet app.activeSessions key).map (fun s => (s.status, s.ideaId))

/-- The chain `generateDraft` followed by `n` sequential reworks, each applied
to the draft produced by the previous step — the version lineage of one idea's
draft as it goes through the rework loop. `bodies i`/`times i` are the
drafting-service response and the clock at the `i`-th rework. -/
def reworkLineage (d0 : ContentDraft) (bodies : Nat → String) (times : Nat → Nat) :
    Nat → ContentDraft
  | 0 => d0
  | n + 1 => mkReworkDraft (reworkLineage d0 bodies times n) (bodies n) (times n)

/-! ## Concrete inputs used by the witnesses and counterexamples -/

/-- A default oracle environment for concrete runs. -/
def baseEnv : Env :=
  { time := 1, pingTs := some "r1", opener := "o",
    judge := fun _ => false, followUp := "f", draftBody := "b",
    reworkBody := fun _ _ _ => .ok "rb",
    saveIdea := fun _ => none, saveDraft := fun _ => none,
    loadContent := fun _ => none, extract := fun _ => .ok [], recent90 := [] }

/-- A minimal transcript with the given id and empty content. -/
def mkTranscript (i : String) : Transcript :=
  { id := i, meetingId := i, title := i, date := 0, participants := [],
    content := "", source := .manual }

/-- A minimal extracted idea with the given id, hook and creation time. -/
def mkIdea (i hook : String) (created : Nat) : ContentIdea :=
  { id := i, sourceTranscriptIds := [], theme := "theme", hook := hook,
    rawQuotes := [], suggestedFormat := .linkedin_post, status := .extracted,
    createdAt := created }

/-- One extracted idea `idea-X`, registered in a miner. -/
def ideaX : ContentIdea := mkIdea "idea-X" "the hook" 0

/-- An app whose miner holds exactly `ideaX`. -/
def appWithIdeaX : AppState :=
  { emptyApp with miner := { emptyMiner with ideas := [("idea-X", ideaX)] } }

/-- C1 run: the drafting service's answers — an idea hooked `Hello!` for the
first batch and an idea hooked `hello` (the same hook up to normalization,
under a fresh id) for the second. -/
def c1Extract (b : List Transcript) : Except Unit (List ContentIdea) :=
  if b.map Transcript.id = ["tA"] then .ok [mkIdea "idea-1" "Hello!" 0]
  else if b.map Transcript.id = ["tB"] then .ok [mkIdea "idea-2" "hello" 1]
  else .ok []

/-- C1 run environment. -/
def c1Env : Env := { baseEnv with extract := c1Extract }

/-- C1 run: live-ingest transcript `tA`, then `tB`. -/
def c1Final : MinerState :=
  queueTranscript c1Env (queueTranscript c1Env emptyMiner (mkTranscript "tA"))
    (mkTranscript "tB")

/-- C2 run: the chat transport hands back thread ts `r1` for the first ping. -/
def c2EnvA : Env := { baseEnv with time := 1, pingTs := some "r1" }

/-- C2 run: the chat transport hands back thread ts `r2` for the second ping. -/
def c2EnvB : Env := { baseEnv with time := 2, pingTs := some "r2" }

/-- C2 run: the bare-number selection `1`, sent as a plain (non-threaded) DM. -/
def c2Msg1 : InboundMsg := { text := "1", ts := "m1", threadTs := none }

/-- C2 run: the same selection sent again. -/
def c2Msg2 : InboundMsg := { text := "1", ts := "m2", threadTs := none }

/-- C2 run: handle `1` twice against a registry holding only `idea-X`. -/
def c2Final : AppState :=
  (handleMessage c2EnvB (handleMessage c2EnvA appWithIdeaX c2Msg1).1 c2Msg2).1

/-- C2/C3/C6 witness state pieces: two sessions for different ideas. -/
def sessA : InterviewSession :=
  { id := "session-1", ideaId := "idea-X", slackThreadTs := "r1",
    messages := [], status := .active, startedAt := 1 }

/-- A later active session for a different idea. -/
def sessB : InterviewSession :=
  { id := "session-2", ideaId := "idea-Y", slackThreadTs := "r2",
    messages := [], status := .active, startedAt := 2 }

/-- C2 witness app: sessions for `idea-X` (older) and `idea-Y` (latest). -/
def c2WitnessApp : AppState :=
  { emptyApp with activeSessions := [("r1", sessA), ("r2", sessB)] }

/-- C3 witness app: a pending rework and no active sessions. -/
def c3App : AppState :=
  { emptyApp with pendingRework := some { draftId := "d1", ideaId := "idea-X" } }

/-- C3 witness: the first feedback message. -/
def c3Msg1 : InboundMsg := { text := "make it shorter", ts := "m1", threadTs := none }

/-- C3 witness: the second message, arriving while the first rework is in flight. -/
def c3Msg2 : InboundMsg := { text := "also punchier please", ts := "m2", threadTs := none }

/-- An interview message with the given timestamp. -/
def mkMsg (i : Nat) : InterviewMessage := { role := .user, content := "m", timestamp := i }

/-- C4 witness: an active session that already has 9 messages. -/
def c4Sess : InterviewSession :=
  { id := "session-1", ideaId := "idea-X", slackThreadTs := "r1",
    messages := (List.range 9).map mkMsg, status := .active, startedAt := 0 }

/-- C4 witness app: the 9-message session over the `idea-X` registry. -/
def c4App : AppState :=
  { appWithIdeaX with activeSessions := [("r1", c4Sess)] }

/-- C5 witness: a miner that has already mined `tA`. -/
def c5Miner : MinerState := { emptyMiner with minedTranscriptIds := ["tA"] }

/-- A 51-character content string (long enough to pass the 50-character gate). -/
def longContent : String := "aaaaaaaaaaaaaaaaaaaaaaaaaaaaaaaaaaaaaaaaaaaaaaaaaaa"

/-- A transcript with the given id and mineable content. -/
def mkFullTranscript (i : String) : Transcript :=
  { mkTranscript i with content := longContent }

/-- C5 witness input: the already-mined `tA` plus a fresh `tB`. -/
def c5List : List Transcript := [mkFullTranscript "tA", mkFullTranscript "tB"]

/-- C7 witness input: 12 fresh transcripts `n0` … `n11`, all with content. -/
def c7List : List Transcript :=
  (List.range 12).map fun i => mkFullTranscript ("n" ++ toString i)

/-- C7 witness oracle: the drafting service throws on the first (size-10)
batch and answers the second. -/
def c7Env : Env :=
  { baseEnv with extract := fun b => if b.length = 10 then .error () else .ok [] }

/-- C6 witness: the original draft under rework. -/
def c6Draft : ContentDraft :=
  { id := "draft-10", ideaId := "idea-X", format := .linkedin_post,
    title := "the hook", body := "v1 body", version := 1, status := .draft,
    createdAt := 10 }

/-- C6 witness app: `c6Draft` cached and awaiting rework feedback. -/
def c6App : AppState :=
  { emptyApp with
    pendingDrafts := [("draft-10", c6Draft)],
    pendingRework := some { draftId := "draft-10", ideaId := "idea-X" } }

/-- C6 witness environment: the rework call succeeds at time 20. -/
def c6Env : Env := { baseEnv with time := 20 }

/-- C8 witness: a legacy idea with no source-transcript ids. -/
def c8Legacy : ContentIdea := mkIdea "idea-legacy" "legacy hook" 0

/-- C8 witness: the known transcript-identifier list of 5 ids. -/
def c8Ids : List String := ["t1", "t2", "t3", "t4", "t5"]

/-! ## Helper lemmas -/

theorem mem_addKnownHook_self (l : List String) (h : String) : h ∈ addKnownHook l h := by
  unfold addKnownHook
  split
  · assumption
  · exact List.mem_cons_self _ _

theorem hasEnough_false_of_short (judge : List InterviewMessage → Bool)
    (msgs : List InterviewMessage) (h : msgs.length < 4) :
    hasEnoughMaterial judge msgs = false := by
  unfold hasEnoughMaterial
  rw [if_pos h]

theorem hasEnough_true_of_long (judge : List InterviewMessage → Bool)
    (msgs : List InterviewMessage) (h : 10 ≤ msgs.length) :
    hasEnoughMaterial judge msgs = true := by
  unfold hasEnoughMaterial
  rw [if_neg (by omega), if_pos h]

theorem loadIdeasStep_snd_true (l : List ContentIdea) (acc : MinerState × Bool)
    (h : acc.2 = true) : (l.foldl loadIdeasStep acc).2 = true := by
  induction l generalizing acc with
  | nil => simpa using h
  | cons i rest ih =>
    rw [List.foldl_cons]
    apply ih
    simp only [loadIdeasStep]
    split
    · rfl
    · simpa using h

theorem loadIdeasStep_orphan (i : ContentIdea) (hleg : i.sourceTranscriptIds = []) :
    ∀ (l : List ContentIdea) (acc : MinerState × Bool), i ∈ l →
      (l.foldl loadIdeasStep acc).2 = true := by
  intro l
  induction l with
  | nil => intro acc h; cases h
  | cons j rest ih =>
    intro acc h
    rw [List.foldl_cons]
    rcases List.mem_cons.mp h with h1 | h1
    · subst h1
      apply loadIdeasStep_snd_true
      simp [loadIdeasStep, hleg]
    · exact ih _ h1

/-! ## Claim theorems -/

/-- C9: for all hooks H1 and H2 with `normalize(H1) = normalize(H2)`,
recording an idea hooked H1 (which adds its normalized hook to the known-hook
set) makes `isDuplicate(H2)` return true. -/
theorem c9_normalized_hook_duplicate (env : Env) (s : MinerState)
    (idea : ContentIdea) (h2 : String)
    (heq : normalizeHook idea.hook = normalizeHook h2) :
    isDuplicate (recordIdea env s idea).1.knownHooks h2 = true := by
  have hk : (recordIdea env s idea).1.knownHooks
      = addKnownHook s.knownHooks (normalizeHook idea.hook) := rfl
  rw [isDuplicate, hk, ← heq]
  simp [mem_addKnownHook_self]

/-- C9 witness: `Hello, World!` and `hello   world` normalize identically, and
recording the first makes the second a duplicate. -/
theorem c9_witness :
    normalizeHook "Hello, World!" = normalizeHook "hello   world" ∧
    isDuplicate (recordIdea baseEnv emptyMiner (mkIdea "idea-1" "Hello, World!" 0)).1.knownHooks
      "hello   world" = true :=
  ⟨by decide,
   c9_normalized_hook_duplicate baseEnv emptyMiner (mkIdea "idea-1" "Hello, World!" 0)
     "hello   world" (by decide)⟩

/-- C10: for an identifier absent from the idea registry, `updateIdeaStatus`
is a total no-op: the state is unchanged and no record-store call is made. -/
theorem c10_update_missing_idea_noop (s : MinerState) (id : String) (st : IdeaStatus)
    (h : mapGet s.ideas id = none) :
    updateIdeaStatus s id st = (s, []) := by
  simp only [updateIdeaStatus, h]

/-- C10 witness: updating a missing id on an empty registry returns the state
unchanged with no record-store call. -/
theorem c10_witness :
    mapGet emptyMiner.ideas "missing" = none ∧
    updateIdeaStatus emptyMiner "missing" .published = (emptyMiner, []) :=
  ⟨by decide, c10_update_missing_idea_noop emptyMiner "missing" .published (by decide)⟩

/-- C4: `hasEnoughMaterial` is false for every history shorter than 4 messages
and true for every history of 10 or more messages regardless of the service's
judgment; consequently an interview reply that brings an active session to
10 messages completes the session and produces a draft even when the judgment
oracle never says yes. -/
theorem c4_enough_material_bounds (env : Env) (app : AppState) (key userText : String)
    (sess : InterviewSession) (idea : ContentIdea)
    (judge : List InterviewMessage → Bool) (msgsA msgsB : List InterviewMessage)
    (hA : msgsA.length < 4) (hB : 10 ≤ msgsB.length)
    (hs : mapGet app.activeSessions key = some sess)
    (hidea : mapGet app.miner.ideas sess.ideaId = some idea)
    (hlen : 9 ≤ sess.messages.length) :
    hasEnoughMaterial judge msgsA = false ∧
    hasEnoughMaterial judge msgsB = true ∧
    (handleInterviewReply env app key userText).2.isSome = true ∧
    sessionStatusAt (handleInterviewReply env app key userText).1 key = some .completed := by
  have henough := hasEnough_true_of_long env.judge
    (sess.messages ++ [{ role := .user, content := userText, timestamp := env.time }])
    (by simp; omega)
  refine ⟨hasEnough_false_of_short judge msgsA hA, hasEnough_true_of_long judge msgsB hB, ?_, ?_⟩
  · simp only [handleInterviewReply, hs, hidea, henough, if_true, Option.isSome_some]
  · simp only [handleInterviewReply, hs, hidea, henough, if_true, sessionStatusAt,
      mapGet_mapSet, if_pos rfl]
    rfl

/-- C4 witness: with a judgment oracle that always answers no, a 3-message
history is not enough, a 10-message history is, and replying to a 9-message
active session produces a draft and completes the session. -/
theorem c4_witness :
    ((List.range 3).map mkMsg).length < 4 ∧
    10 ≤ ((List.range 10).map mkMsg).length ∧
    hasEnoughMaterial baseEnv.judge ((List.range 3).map mkMsg) = false ∧
    hasEnoughMaterial baseEnv.judge ((List.range 10).map mkMsg) = true ∧
    (handleInterviewReply baseEnv c4App "r1" "answer").2.isSome = true ∧
    sessionStatusAt (handleInterviewReply baseEnv c4App "r1" "answer").1 "r1" = some .completed := by
  have H := c4_enough_material_bounds baseEnv c4App "r1" "answer" c4Sess ideaX
    baseEnv.judge ((List.range 3).map mkMsg) ((List.range 10).map mkMsg)
    (by decide) (by decide) (by decide) (by decide) (by decide)
  exact ⟨by decide, by decide, H.1, H.2.1, H.2.2.1, H.2.2.2⟩

/-- C8: loading the registry from a durable snapshot that contains at least
one idea with an empty source-transcript-identifier list, with a full
transcript-identifier list supplied, marks every supplied identifier mined. -/
theorem c8_legacy_marks_all_mined (s : MinerState) (loaded : List ContentIdea)
    (l : List String) (i : ContentIdea) (tid : String)
    (hmem : i ∈ loaded) (hleg : i.sourceTranscriptIds = []) (htid : tid ∈ l) :
    tid ∈ (loadFromNotion s (.ok loaded) (some l)).minedTranscriptIds := by
  have horph := loadIdeasStep_orphan i hleg loaded (s, false) hmem
  simp only [loadFromNotion, horph]
  simp [htid]

/-- C8 witness: one legacy idea and the 5-identifier transcript list leave all
5 identifiers marked mined. -/
theorem c8_witness :
    c8Legacy ∈ [c8Legacy] ∧ c8Legacy.sourceTranscriptIds = [] ∧
    "t1" ∈ (loadFromNotion emptyMiner (.ok [c8Legacy]) (some c8Ids)).minedTranscriptIds ∧
    "t2" ∈ (loadFromNotion emptyMiner (.ok [c8Legacy]) (some c8Ids)).minedTranscriptIds ∧
    "t3" ∈ (loadFromNotion emptyMiner (.ok [c8Legacy]) (some c8Ids)).minedTranscriptIds ∧
    "t4" ∈ (loadFromNotion emptyMiner (.ok [c8Legacy]) (some c8Ids)).minedTranscriptIds ∧
    "t5" ∈ (loadFromNotion emptyMiner (.ok [c8Legacy]) (some c8Ids)).minedTranscriptIds :=
  ⟨by decide, by decide,
   c8_legacy_marks_all_mined emptyMiner [c8Legacy] c8Ids c8Legacy "t1" (by decide) (by decide) (by decide),
   c8_legacy_marks_all_mined emptyMiner [c8Legacy] c8Ids c8Legacy "t2" (by decide) (by decide) (by decide),
   c8_legacy_marks_all_mined emptyMiner [c8Legacy] c8Ids c8Legacy "t3" (by decide) (by decide) (by decide),
   c8_legacy_marks_all_mined emptyMiner [c8Legacy] c8Ids c8Legacy "t4" (by decide) (by decide) (by decide),
   c8_legacy_marks_all_mined emptyMiner [c8Legacy] c8Ids c8Legacy "t5" (by decide) (by decide) (by decide)⟩

theorem routeMessage_no_rework (app : AppState) (m : InboundMsg)
    (h : app.pendingRework = none) :
    routeMessage app m = Route.command ∨ isReplyRoute (routeMessage app m) = true := by
  simp only [routeMessage, h]
  split
  · split
    · right; rfl
    · split
      · split
        · left; rfl
        · split
          · right; rfl
          · left; rfl
      · left; rfl
  · split
    · split
      · left; rfl
      · split
        · right; rfl
        · left; rfl
    · left; rfl

/-- C3: when rework feedback arrives while a `PendingRework` exists, the flag
is cleared before any external call (`reworkPre` is the handler's prefix up to
the first suspension point), so any second message observing that state is
never routed as rework feedback — it becomes a command or an interview-session
message; and the full handler, success or failure, also ends with no pending
rework. -/
theorem c3_rework_flag_cleared_before_external_call (env : Env) (app : AppState)
    (m1 m2 : InboundMsg) (rw : PendingRework)
    (hpr : app.pendingRework = some rw)
    (hroute : routeMessage app m1 = Route.reworkFeedback) :
    (reworkPre app).pendingRework = none ∧
    routeMessage (reworkPre app) m2 ≠ Route.reworkFeedback ∧
    (routeMessage (reworkPre app) m2 = Route.command ∨
      isReplyRoute (routeMessage (reworkPre app) m2) = true) ∧
    (handleReworkFeedback env app m1.text).1.pendingRework = none := by
  have hnone : (reworkPre app).pendingRework = none := rfl
  have hdisj := routeMessage_no_rework (reworkPre app) m2 hnone
  refine ⟨hnone, ?_, hdisj, ?_⟩
  · intro hcontra
    rcases hdisj with h | h
    · rw [hcontra] at h; cases h
    · rw [hcontra] at h; cases h
  · simp only [handleReworkFeedback, hpr]
    split
    · rfl
    · split
      · rfl
      · rfl

/-- C3 witness: with a pending rework and no active sessions, the first
message is routed as rework feedback; after the pre-external-call prefix the
second message is routed as a command, and the full handler leaves no pending
rework. -/
theorem c3_witness :
    c3App.pendingRework = some { draftId := "d1", ideaId := "idea-X" } ∧
    routeMessage c3App c3Msg1 = Route.reworkFeedback ∧
    (reworkPre c3App).pendingRework = none ∧
    routeMessage (reworkPre c3App) c3Msg2 ≠ Route.reworkFeedback ∧
    (routeMessage (reworkPre c3App) c3Msg2 = Route.command ∨
      isReplyRoute (routeMessage (reworkPre c3App) c3Msg2) = true) ∧
    (handleReworkFeedback baseEnv c3App c3Msg1.text).1.pendingRework = none := by
  have H := c3_rework_flag_cleared_before_external_call baseEnv c3App c3Msg1 c3Msg2
    { draftId := "d1", ideaId := "idea-X" } (by decide) (by decide)
  exact ⟨by decide, by decide, H.1, H.2.1, H.2.2.1, H.2.2.2⟩

theorem saveDraftStep_id (env : Env) (d : ContentDraft) :
    (saveDraftStep env d).id = d.id := by
  unfold saveDraftStep
  split <;> rfl

theorem saveDraftStep_version (env : Env) (d : ContentDraft) :
    (saveDraftStep env d).version = d.version := by
  unfold saveDraftStep
  split <;> rfl

theorem saveDraftStep_format (env : Env) (d : ContentDraft) :
    (saveDraftStep env d).format = d.format := by
  unfold saveDraftStep
  split <;> rfl

theorem saveDraftStep_ideaId (env : Env) (d : ContentDraft) :
    (saveDraftStep env d).ideaId = d.ideaId := by
  unfold saveDraftStep
  split <;> rfl

theorem reworkLineage_version (d0 : ContentDraft) (bodies : Nat → String)
    (times : Nat → Nat) (h1 : d0.version = 1) :
    ∀ n, (reworkLineage d0 bodies times n).version = n + 1 := by
  intro n
  induction n with
  | zero => simpa [reworkLineage] using h1
  | succ k ih => simp [reworkLineage, mkReworkDraft, ih]

/-- C6: the rework handler never mutates the cached original draft — the
original is still stored unchanged under its key afterwards — and the draft it
produces has the original's version plus one, a fresh identifier, and the
original's format and idea lineage; and a `generateDraft` lineage followed by
`n` sequential reworks carries version `n + 1`, so the version sequence after
`N` reworks is exactly `1, 2, …, N + 1` with no gaps. -/
theorem c6_rework_fresh_draft_lineage (env : Env) (app : AppState)
    (rw : PendingRework) (draft : ContentDraft) (newBody feedback : String)
    (ideaL : ContentIdea) (fmtL : ContentFormat) (bodyL : String) (t0 : Nat)
    (bodies : Nat → String) (times : Nat → Nat) (n : Nat)
    (hpr : app.pendingRework = some rw)
    (hd : mapGet app.pendingDrafts rw.draftId = some draft)
    (hkey : draft.id = rw.draftId)
    (hok : env.reworkBody draft.body feedback draft.format = .ok newBody)
    (hfresh : "draft-" ++ toString env.time ≠ draft.id) :
    (handleReworkFeedback env app feedback).2.map ContentDraft.version = some (draft.version + 1) ∧
    (handleReworkFeedback env app feedback).2.map ContentDraft.format = some draft.format ∧
    (handleReworkFeedback env app feedback).2.map ContentDraft.ideaId = some draft.ideaId ∧
    (handleReworkFeedback env app feedback).2.map ContentDraft.id ≠ some draft.id ∧
    mapGet (handleReworkFeedback env app feedback).1.pendingDrafts rw.draftId = some draft ∧
    (reworkLineage (generateDraft ideaL fmtL bodyL t0) bodies times n).version = n + 1 := by
  have hd' : mapGet (reworkPre app).pendingDrafts rw.draftId = some draft := hd
  have hndid : (saveDraftStep env (mkReworkDraft draft newBody env.time)).id
      = "draft-" ++ toString env.time := by
    rw [saveDraftStep_id]
    rfl
  have hkeyne : ¬(rw.draftId = (saveDraftStep env (mkReworkDraft draft newBody env.time)).id) := by
    rw [hndid]
    intro hcontra
    exact hfresh (hcontra ▸ hkey.symm)
  simp only [handleReworkFeedback, hpr, hd', hok]
  refine ⟨?_, ?_, ?_, ?_, ?_, reworkLineage_version _ bodies times rfl n⟩
  · simp [saveDraftStep_version, mkReworkDraft]
  · simp [saveDraftStep_format, mkReworkDraft]
  · simp [saveDraftStep_ideaId, mkReworkDraft]
  · simp only [Option.map_some']
    intro hcontra
    have := Option.some.inj hcontra
    rw [hndid] at this
    exact hfresh this
  · rw [mapGet_mapSet, if_neg hkeyne]
    exact hd'

/-- C6 witness: reworking `c6Draft` (version 1, id `draft-10`) at time 20
yields a version-2 draft with a fresh id and the same format and idea, leaves
the cached original untouched, and the lineage version formula holds at 3
reworks. -/
theorem c6_witness :
    c6App.pendingRework = some { draftId := "draft-10", ideaId := "idea-X" } ∧
    mapGet c6App.pendingDrafts "draft-10" = some c6Draft ∧
    c6Draft.id = "draft-10" ∧
    c6Env.reworkBody c6Draft.body "tighter" c6Draft.format = .ok "rb" ∧
    "draft-" ++ toString c6Env.time ≠ c6Draft.id ∧
    (handleReworkFeedback c6Env c6App "tighter").2.map ContentDraft.version = some (c6Draft.version + 1) ∧
    (handleReworkFeedback c6Env c6App "tighter").2.map ContentDraft.id ≠ some c6Draft.id ∧
    mapGet (handleReworkFeedback c6Env c6App "tighter").1.pendingDrafts "draft-10" = some c6Draft ∧
    (reworkLineage (generateDraft ideaX .linkedin_post "b" 0) (fun _ => "rb") (fun i => i) 3).version = 4 := by
  have H := c6_rework_fresh_draft_lineage c6Env c6App
    { draftId := "draft-10", ideaId := "idea-X" } c6Draft "rb" "tighter"
    ideaX .linkedin_post "b" 0 (fun _ => "rb") (fun i => i) 3
    (by decide) (by decide) (by decide) (by rfl) (by decide)
  exact ⟨by decide, by decide, by decide, by rfl, by decide,
    H.1, H.2.2.2.1, H.2.2.2.2.1, H.2.2.2.2.2⟩

theorem latestActiveAux_mem :
    ∀ (l : List (String × InterviewSession)) (acc : Option (String × InterviewSession))
      (p : String × InterviewSession),
      latestActiveAux acc l = some p → p ∈ l ∨ acc = some p := by
  intro l
  induction l with
  | nil =>
    intro acc p h
    right
    exact h
  | cons x rest ih =>
    intro acc p h
    obtain ⟨k, s⟩ := x
    by_cases hst : s.status = .active
    · cases acc with
      | none =>
        simp only [latestActiveAux, if_pos hst] at h
        rcases ih _ _ h with hm | he
        · exact Or.inl (List.mem_cons_of_mem _ hm)
        · have hep := Option.some.inj he
          subst hep
          exact Or.inl (List.mem_cons_self _ _)
      | some q =>
        obtain ⟨k0, s0⟩ := q
        simp only [latestActiveAux, if_pos hst] at h
        by_cases hcmp : s0.startedAt < s.startedAt
        · rw [if_pos hcmp] at h
          rcases ih _ _ h with hm | he
          · exact Or.inl (List.mem_cons_of_mem _ hm)
          · have hep := Option.some.inj he
            subst hep
            exact Or.inl (List.mem_cons_self _ _)
        · rw [if_neg hcmp] at h
          rcases ih _ _ h with hm | he
          · exact Or.inl (List.mem_cons_of_mem _ hm)
          · right
            exact he
    · simp only [latestActiveAux, if_neg hst] at h
      rcases ih _ _ h with hm | he
      · exact Or.inl (List.mem_cons_of_mem _ hm)
      · right
        exact he

theorem mapGet_of_mem_nodup {α : Type} :
    ∀ (l : List (String × α)), (l.map Prod.fst).Nodup →
      ∀ p ∈ l, mapGet l p.1 = some p.2 := by
  intro l
  induction l with
  | nil =>
    intro _ p hp
    cases hp
  | cons x rest ih =>
    intro hn p hp
    obtain ⟨a, b⟩ := x
    rcases List.mem_cons.mp hp with h | h
    · subst h
      simp [mapGet]
    · have hne : a ≠ p.1 := by
        intro hcontra
        have hmem : p.1 ∈ rest.map Prod.fst := List.mem_map_of_mem _ h
        rw [List.map_cons] at hn
        exact (List.nodup_cons.mp hn).1 (hcontra ▸ hmem)
      simp only [mapGet, if_neg hne]
      exact ih (by rw [List.map_cons] at hn; exact (List.nodup_cons.mp hn).2) p h

/-- C2 counterexample: two bare-number selections of the same idea produce two
simultaneously `active` sessions targeting `idea-X` under distinct thread
keys, so a reachable state of the session machine violates
at-most-one-active-session-per-idea. -/
theorem c2_two_active_sessions_same_idea :
    sessionViewAt c2Final "r1" = some (.active, "idea-X") ∧
    sessionViewAt c2Final "r2" = some (.active, "idea-X") ∧
    "r1" ≠ "r2" :=
  ⟨by decide, by decide, by decide⟩

/-- C2 (amended): a `stop` command changes the status of at most the single
most-recently-started active session — every session under a different thread
key, and in particular every session for a different idea than the latest
active one, is left unchanged. -/
theorem c2_stop_changes_only_latest (app : AppState) (k k0 : String)
    (s s0 : InterviewSession)
    (hnd : (app.activeSessions.map Prod.fst).Nodup)
    (hlatest : getLatestActiveSession app.activeSessions = some (k0, s0))
    (hk : mapGet app.activeSessions k = some s) :
    (k ≠ k0 → mapGet (handleStopCmd app).activeSessions k = some s) ∧
    (s.ideaId ≠ s0.ideaId → mapGet (handleStopCmd app).activeSessions k = some s) := by
  have hmem : (k0, s0) ∈ app.activeSessions := by
    rcases latestActiveAux_mem app.activeSessions none (k0, s0) hlatest with h | h
    · exact h
    · cases h
  have hget0 : mapGet app.activeSessions k0 = some s0 :=
    mapGet_of_mem_nodup app.activeSessions hnd (k0, s0) hmem
  have hstop : (handleStopCmd app).activeSessions
      = mapSet app.activeSessions k0 { s0 with status := .abandoned } := by
    simp only [handleStopCmd, hlatest]
  constructor
  · intro hne
    rw [hstop, mapGet_mapSet, if_neg hne]
    exact hk
  · intro hidea
    by_cases hne : k = k0
    · subst hne
      rw [hk] at hget0
      have hss := Option.some.inj hget0
      exact absurd (congrArg InterviewSession.ideaId hss) hidea
    · rw [hstop, mapGet_mapSet, if_neg hne]
      exact hk

/-- C2 witness for the amended claim: stopping while the latest active session
targets `idea-Y` leaves the `idea-X` session unchanged. -/
theorem c2_stop_frame_witness :
    (c2WitnessApp.activeSessions.map Prod.fst).Nodup ∧
    getLatestActiveSession c2WitnessApp.activeSessions = some ("r2", sessB) ∧
    mapGet c2WitnessApp.activeSessions "r1" = some sessA ∧
    sessA.ideaId ≠ sessB.ideaId ∧
    mapGet (handleStopCmd c2WitnessApp).activeSessions "r1" = some sessA := by
  have H := c2_stop_changes_only_latest c2WitnessApp "r1" "r2" sessA sessB
    (by decide) (by decide) (by decide)
  exact ⟨by decide, by decide, by decide, by decide, H.2 (by decide)⟩

/-- C1: evidence against the claim on the live-ingestion drain path. Enqueuing
`tA` and then `tB`, with the drafting service returning an idea hooked
`Hello!` for the first batch and an idea hooked `hello` (a distinct id, the
same hook up to normalization) for the second, records **2** ideas while only
**1** unique normalized hook was returned across all batches — and the drain
left the dedup set untouched, even though `isDuplicate` itself would have
flagged the second hook as a duplicate of the first. The claimed bound
(records ≤ unique normalized hooks) therefore fails on `processQueue`. -/
theorem c1_drain_records_duplicate_hooks :
    c1Final.ideas.length = 2 ∧
    c1Final.knownHooks = [] ∧
    normalizeHook "Hello!" = normalizeHook "hello" ∧
    isDuplicate (addKnownHook [] (normalizeHook "Hello!")) "hello" = true :=
  ⟨by decide, by decide, by decide, by decide⟩

theorem truncateContent_id (t : Transcript) : (truncateContent t).id = t.id := by
  unfold truncateContent
  split <;> rfl

theorem keepContent_id (lc : Transcript → Option String) (t u : Transcript)
    (h : keepContent lc t = some u) : u.id = t.id := by
  unfold keepContent at h
  repeat' split at h
  all_goals cases h
  all_goals rfl

theorem collectWithContent_snd (lc : Transcript → Option String) :
    ∀ l : List Transcript, (collectWithContent lc l).2 = l.map Transcript.id := by
  intro l
  induction l with
  | nil => rfl
  | cons t rest ih =>
    simp only [collectWithContent]
    split <;> simp [ih]

theorem collectWithContent_mem (lc : Transcript → Option String) :
    ∀ (l : List Transcript) (u : Transcript), u ∈ (collectWithContent lc l).1 →
      ∃ t ∈ l, u.id = t.id := by
  intro l
  induction l with
  | nil =>
    intro u hu
    simp [collectWithContent] at hu
  | cons t rest ih =>
    intro u hu
    simp only [collectWithContent] at hu
    split at hu
    · rename_i u' heq
      rcases List.mem_cons.mp hu with h | h
      · subst h
        exact ⟨t, List.mem_cons_self _ _, keepContent_id lc t u heq⟩
      · obtain ⟨t', ht', hid⟩ := ih u h
        exact ⟨t', List.mem_cons_of_mem _ ht', hid⟩
    · obtain ⟨t', ht', hid⟩ := ih u hu
      exact ⟨t', List.mem_cons_of_mem _ ht', hid⟩

theorem collectWithContent_all (lc : Transcript → Option String) :
    ∀ l : List Transcript, (∀ t ∈ l, 50 < t.content.length) →
      (collectWithContent lc l).1 = l := by
  intro l
  induction l with
  | nil => intro _; rfl
  | cons t rest ih =>
    intro h
    have hkeep : keepContent lc t = some t := by
      unfold keepContent
      rw [if_pos (h t (List.mem_cons_self _ _))]
    simp only [collectWithContent, hkeep]
    rw [ih (fun u hu => h u (List.mem_cons_of_mem _ hu))]

theorem batchesOf_subset {α : Type} (k : Nat) :
    ∀ (n : Nat) (l : List α), l.length ≤ n → ∀ b ∈ batchesOf k l, ∀ x ∈ b, x ∈ l := by
  intro n
  induction n with
  | zero =>
    intro l hl b hb x hx
    have hnil : l = [] := List.eq_nil_of_length_eq_zero (Nat.le_zero.mp hl)
    subst hnil
    simp [batchesOf] at hb
  | succ m ih =>
    intro l hl b hb x hx
    cases l with
    | nil => simp [batchesOf] at hb
    | cons y ys =>
      simp only [batchesOf] at hb
      rcases List.mem_cons.mp hb with h | h
      · subst h
        exact List.mem_of_mem_take hx
      · have hlen : (ys.drop (k - 1)).length ≤ m := by
          simp only [List.length_drop]
          simp only [List.length_cons] at hl
          omega
        exact List.mem_cons_of_mem _ (List.mem_of_mem_drop (ih (ys.drop (k - 1)) hlen b h x hx))

theorem recordIdeas_mined (env : Env) :
    ∀ (ideas : List ContentIdea) (s : MinerState),
      (recordIdeas env s ideas).1.minedTranscriptIds = s.minedTranscriptIds := by
  intro ideas
  induction ideas with
  | nil => intro s; rfl
  | cons i rest ih =>
    intro s
    simp only [recordIdeas]
    split
    · exact ih s
    · rw [ih]
      rfl

theorem processBatches_mined (env : Env) :
    ∀ (bs : List (List Transcript)) (s : MinerState),
      (processBatches env bs s).1.minedTranscriptIds = s.minedTranscriptIds := by
  intro bs
  induction bs with
  | nil => intro s; rfl
  | cons b rest ih =>
    intro s
    simp only [processBatches]
    split
    · exact ih s
    · rw [ih, recordIdeas_mined]

theorem mined_after_collect (lc : Transcript → Option String) (s : MinerState)
    (ts : List Transcript) (t : Transcript) (ht : t ∈ ts) :
    t.id ∈ (collectWithContent lc (ts.filter fun u => !decide (u.id ∈ s.minedTranscriptIds))).2
      ++ s.minedTranscriptIds := by
  by_cases hm : t.id ∈ s.minedTranscriptIds
  · exact List.mem_append_right _ hm
  · apply List.mem_append_left
    rw [collectWithContent_snd]
    apply List.mem_map_of_mem
    rw [List.mem_filter]
    exact ⟨ht, by simpa using hm⟩

theorem mine_marks (env : Env) (s : MinerState) (ts : List Transcript) (t : Transcript)
    (ht : t ∈ ts) :
    t.id ∈ (mineFromTranscripts env s ts).state.minedTranscriptIds := by
  by_cases h0 : ts = []
  · subst h0; cases ht
  · simp only [mineFromTranscripts, if_neg h0]
    by_cases h1 : ts.filter (fun u => !decide (u.id ∈ s.minedTranscriptIds)) = []
    · rw [if_pos h1]
      have hall := List.filter_eq_nil.mp h1 t ht
      simpa using hall
    · rw [if_neg h1]
      by_cases h2 : (collectWithContent env.loadContent
          (ts.filter fun u => !decide (u.id ∈ s.minedTranscriptIds))).1 = []
      · rw [if_pos h2]
        exact mined_after_collect env.loadContent s ts t ht
      · rw [if_neg h2]
        simp only [processBatches_mined]
        exact mined_after_collect env.loadContent s ts t ht

theorem mine_not_resubmit (env : Env) (s : MinerState) (ts : List Transcript) (x : String)
    (hx : x ∈ s.minedTranscriptIds) :
    ∀ b ∈ (mineFromTranscripts env s ts).batches, ∀ u ∈ b, u.id ≠ x := by
  intro b hb u hu
  by_cases h0 : ts = []
  · subst h0
    simp [mineFromTranscripts] at hb
  · simp only [mineFromTranscripts, if_neg h0] at hb
    by_cases h1 : ts.filter (fun u => !decide (u.id ∈ s.minedTranscriptIds)) = []
    · rw [if_pos h1] at hb
      simp at hb
    · rw [if_neg h1] at hb
      by_cases h2 : (collectWithContent env.loadContent
          (ts.filter fun u => !decide (u.id ∈ s.minedTranscriptIds))).1 = []
      · rw [if_pos h2] at hb
        simp at hb
      · rw [if_neg h2] at hb
        have hu2 := batchesOf_subset 10 _ _ le_rfl b hb u hu
        obtain ⟨v, hv, rfl⟩ := List.mem_map.mp hu2
        obtain ⟨t', ht', hid⟩ := collectWithContent_mem env.loadContent _ v hv
        have hfil := (List.mem_filter.mp ht').2
        intro hcontra
        rw [truncateContent_id, hid] at hcontra
        rw [hcontra] at hfil
        simp [hx] at hfil

theorem batchesOf_len12 {α : Type} (l : List α) (h : l.length = 12) :
    (batchesOf 10 l).map List.length = [10, 2] := by
  cases l with
  | nil => simp at h
  | cons x xs =>
    have hxs : xs.length = 11 := by simpa using h
    have h9 : (xs.drop (10 - 1)).length = 2 := by
      simp [List.length_drop, hxs]
    cases hd : xs.drop (10 - 1) with
    | nil =>
      rw [hd] at h9
      simp at h9
    | cons y ys =>
      rw [hd] at h9
      have hys : ys.length = 1 := by simpa using h9
      have hys9 : ys.drop (10 - 1) = [] := by
        apply List.drop_eq_nil_of_le
        omega
      simp only [batchesOf, hd, hys9]
      simp [List.length_take, hxs, hys]

/-- C5: a transcript identifier already marked mined is never part of any
batch `mineFromTranscripts` submits to the drafting service; every transcript
in the call's input — including ones later skipped for empty or unloadable
content — has its identifier marked mined in the resulting state; and hence a
transcript from one call is never part of any batch of a later call. -/
theorem c5_mined_never_resubmitted (env env2 : Env) (s : MinerState)
    (ts ts2 : List Transcript) (t : Transcript) (x : String)
    (ht : t ∈ ts) (hx : x ∈ s.minedTranscriptIds) :
    (∀ b ∈ (mineFromTranscripts env s ts).batches, ∀ u ∈ b, u.id ≠ x) ∧
    t.id ∈ (mineFromTranscripts env s ts).state.minedTranscriptIds ∧
    (∀ b ∈ (mineFromTranscripts env2 (mineFromTranscripts env s ts).state ts2).batches,
      ∀ u ∈ b, u.id ≠ t.id) :=
  ⟨mine_not_resubmit env s ts x hx,
   mine_marks env s ts t ht,
   mine_not_resubmit env2 _ ts2 t.id (mine_marks env s ts t ht)⟩

/-- C5 witness: with `tA` already mined, mining `[tA, tB]` (both with
content) never submits `tA`, marks `tB` mined, and a second identical call
never submits `tB` either. -/
theorem c5_witness :
    mkFullTranscript "tB" ∈ c5List ∧
    "tA" ∈ c5Miner.minedTranscriptIds ∧
    (∀ b ∈ (mineFromTranscripts baseEnv c5Miner c5List).batches, ∀ u ∈ b, u.id ≠ "tA") ∧
    (mkFullTranscript "tB").id ∈ (mineFromTranscripts baseEnv c5Miner c5List).state.minedTranscriptIds ∧
    (∀ b ∈ (mineFromTranscripts baseEnv (mineFromTranscripts baseEnv c5Miner c5List).state
        c5List).batches, ∀ u ∈ b, u.id ≠ (mkFullTranscript "tB").id) := by
  have H := c5_mined_never_resubmitted baseEnv baseEnv c5Miner c5List c5List
    (mkFullTranscript "tB") "tA" (by decide) (by decide)
  exact ⟨by decide, by decide, H.1, H.2.1, H.2.2⟩

/-- C7: a `mineFromTranscripts` call over 12 unmined transcripts that all
have content makes exactly 2 drafting-service extraction calls, with batch
sizes 10 and 2 in that order — for every extraction oracle, in particular
ones whose first call throws, so a first-batch error does not prevent the
second call. -/
theorem c7_batch_sizes_ten_two (env : Env) (s : MinerState) (ts : List Transcript)
    (hlen : ts.length = 12)
    (hunmined : ∀ t ∈ ts, t.id ∉ s.minedTranscriptIds)
    (hcontent : ∀ t ∈ ts, 50 < t.content.length) :
    (mineFromTranscripts env s ts).batches.map List.length = [10, 2] := by
  have h0 : ts ≠ [] := by
    intro hnil
    rw [hnil] at hlen
    simp at hlen
  have hfil : ts.filter (fun u => !decide (u.id ∈ s.minedTranscriptIds)) = ts := by
    apply List.filter_eq_self.mpr
    intro a ha
    simpa using hunmined a ha
  have hcol : (collectWithContent env.loadContent ts).1 = ts :=
    collectWithContent_all env.loadContent ts hcontent
  have hb : (mineFromTranscripts env s ts).batches
      = batchesOf 10 (ts.map truncateContent) := by
    simp only [mineFromTranscripts, hfil, hcol, if_neg h0]
  rw [hb]
  apply batchesOf_len12
  simp [hlen]

/-- C7 witness: 12 fresh transcripts with content, against an oracle that
throws on the size-10 batch, still yield the two extraction calls of sizes
10 and 2. -/
theorem c7_witness :
    c7List.length = 12 ∧
    (∀ t ∈ c7List, t.id ∉ emptyMiner.minedTranscriptIds) ∧
    (∀ t ∈ c7List, 50 < t.content.length) ∧
    (mineFromTranscripts c7Env emptyMiner c7List).batches.map List.length = [10, 2] := by
  have H := c7_batch_sizes_ten_two c7Env emptyMiner c7List (by decide) (by decide) (by decide)
  exact ⟨by decide, by decide, by decide, H⟩
